import Mathlib

/-!
Shallow embedding of the HTTP/1.1 server in `src/` (request wire parsing,
response serialization, the per-connection read loop and dispatcher).
Bytes are modelled as `Char` (all protocol-relevant octets are ASCII); the
input socket is a finite list of wire events, where `WireEvent.fail` models
an I/O error surfaced by a read call.
-/

namespace HttpSrv

/-- Byte strings, modelled as lists of characters. -/
abbrev Str := List Char

/-- Coerce a Lean string literal to a byte string. -/
def str (s : String) : Str := s.data

/-- One observable unit on the input socket: a byte, or an I/O error
surfaced by the read call that encounters it. -/
inductive WireEvent
  | byte (c : Char)
  | fail
deriving DecidableEq, Repr

/-- A finite input stream (the readable half of a connection). -/
abbrev Wire := List WireEvent

/-- A wire carrying the bytes of a string, with no I/O error. -/
def strWire (s : String) : Wire := s.data.map WireEvent.byte

/-- ASCII whitespace recognised by the trimming helpers (`char::is_whitespace`
restricted to the ASCII range, all that can occur on this wire). -/
def isWs (c : Char) : Bool := c = ' ' || c = '\t' || c = '\r' || c = '\n'

/-- Models Rust `str::trim_end`. -/
def trimEnd (s : Str) : Str := (s.reverse.dropWhile isWs).reverse

/-- Models Rust `str::trim`. -/
def trimStr (s : Str) : Str := ((s.dropWhile isWs).reverse.dropWhile isWs).reverse

/-- Lowercase one ASCII character (identity elsewhere). -/
def asciiLower (c : Char) : Char :=
  if 'A' ≤ c ∧ c ≤ 'Z' then Char.ofNat (c.toNat + 32) else c

/-- Models Rust `str::to_lowercase` on ASCII input. -/
def lowerStr (s : Str) : Str := s.map asciiLower

/-- Models Rust `str::eq_ignore_ascii_case`. -/
def eqIgnoreAsciiCase (a b : Str) : Bool := lowerStr a == lowerStr b

/-- Models Rust `str::split_once(sep)`: split at the first occurrence of
`sep`, which is consumed. -/
def splitOnceChar (sep : Char) : Str → Option (Str × Str)
  | [] => none
  | c :: rest =>
    if c = sep then some ([], rest)
    else (splitOnceChar sep rest).map (fun p => (c :: p.1, p.2))

/-- Digit value of an ASCII digit. -/
def digitVal (c : Char) : Option Nat :=
  if '0' ≤ c ∧ c ≤ '9' then some (c.toNat - '0'.toNat) else none

/-- Accumulate decimal digits; `none` on a non-digit. -/
def parseDigitsAux (acc : Nat) : Str → Option Nat
  | [] => some acc
  | c :: rest =>
    match digitVal c with
    | some d => parseDigitsAux (acc * 10 + d) rest
    | none => none

/-- Parse a nonempty all-digit string as a decimal number. -/
def parseDigits : Str → Option Nat
  | [] => none
  | s => parseDigitsAux 0 s

/-- Models Rust `usize::from_str`: an optional leading `+`, then one or more
ASCII digits; values above `usize::MAX` (64-bit) overflow to an error. -/
def parseUsize (s : Str) : Option Nat :=
  let t := match s with
    | '+' :: rest => rest
    | _ => s
  match parseDigits t with
  | some n => if n < 2 ^ 64 then some n else none
  | none => none

/-- Models `HttpRequestError` from `src/src/listener/request.rs`: an opaque
payload that is `None` at every construction site in the source. -/
abbrev HttpRequestError := Option Str

/-- Models `impl fmt::Display for HttpRequestError`
(`src/src/listener/request.rs` lines 115–122). -/
def errorDisplay : HttpRequestError → Str
  | some message => str "HTTP 400 " ++ message
  | none => str "HTTP 400 Bad Request"

/-- Models the `RequestLine` struct of `src/src/listener/request.rs`. -/
structure RequestLine where
  method : Str
  target : Str
  version : Str
deriving DecidableEq, Repr

/-- Models `impl FromStr for RequestLine`: split on the first space to get
the method, split the remainder on the first space to get target and
version; a missing separator is an error. -/
def RequestLine.fromStr (s : Str) : Except HttpRequestError RequestLine :=
  match splitOnceChar ' ' s with
  | some (method, rest) =>
    match splitOnceChar ' ' rest with
    | some (target, version) => .ok ⟨method, target, version⟩
    | none => .error none
  | none => .error none

/-- Models the `HttpHeader` struct of `src/src/listener/request.rs`. -/
structure HttpHeader where
  key : Str
  value : Str
deriving DecidableEq, Repr

/-- Models `impl FromStr for HttpHeader` (`src/src/listener/request.rs`
lines 129–144): split on the first colon; the key is lowercased (not
trimmed), the value is trimmed; a line with no colon is an error. -/
def HttpHeader.fromStr (s : Str) : Except HttpRequestError HttpHeader :=
  match splitOnceChar ':' s with
  | some (k, v) => .ok ⟨lowerStr k, trimStr v⟩
  | none => .error none

/-- The request header map, `HashMap<String, Vec<String>>` in the source,
modelled as an association list keyed by the (already lowercased) header
key. Only keyed lookup is ever performed on it in the source, so the
entry order of the association list is unobservable. -/
abbrev Headers := List (Str × List Str)

/-- Models `HashMap::get`: the value list stored under exactly this key. -/
def getHeader : Headers → Str → Option (List Str)
  | [], _ => none
  | e :: rest, k => if e.1 == k then some e.2 else getHeader rest k

/-- Models `headers.entry(key).or_default().push(value)`: append the value
to the existing entry for the key, or create a fresh singleton entry. -/
def insertHeader (m : Headers) (k : Str) (v : Str) : Headers :=
  match m with
  | [] => [(k, [v])]
  | e :: rest =>
    if e.1 == k then (e.1, e.2 ++ [v]) :: rest
    else e :: insertHeader rest k v

/-- Models the `HttpRequest` struct of `src/src/listener/request.rs`. -/
structure HttpRequest where
  method : Str
  target : Str
  version : Str
  headers : Headers
  body : Str
deriving DecidableEq, Repr

/-- Models `AsyncBufReadExt::read_line` on the wire: consume bytes up to and
including the first `\n` (or to end of stream); an I/O error event aborts
the read, is consumed, and surfaces as an `HttpRequestError` per
`impl From<io::Error> for HttpRequestError`. The returned wire is the
unconsumed remainder. -/
def readLine : Wire → Except HttpRequestError Str × Wire
  | [] => (.ok [], [])
  | .fail :: rest => (.error none, rest)
  | .byte c :: rest =>
    if c = '\n' then (.ok [c], rest)
    else
      match readLine rest with
      | (.ok line, w) => (.ok (c :: line), w)
      | (.error e, w) => (.error e, w)

/-- Models `AsyncReadExt::read_exact n`: exactly `n` bytes, an error on end
of stream or an I/O error event. -/
def readExact : Nat → Wire → Except HttpRequestError Str × Wire
  | 0, w => (.ok [], w)
  | _ + 1, [] => (.error none, [])
  | _ + 1, .fail :: rest => (.error none, rest)
  | n + 1, .byte c :: rest =>
    match readExact n rest with
    | (.ok bs, w) => (.ok (c :: bs), w)
    | (.error e, w) => (.error e, w)

/-- Models `AsyncReadExt::read_to_end`: all bytes up to end of stream, an
error on an I/O error event. -/
def readToEnd : Wire → Except HttpRequestError Str × Wire
  | [] => (.ok [], [])
  | .fail :: rest => (.error none, rest)
  | .byte c :: rest =>
    match readToEnd rest with
    | (.ok bs, w) => (.ok (c :: bs), w)
    | (.error e, w) => (.error e, w)

/-- The header loop of `read` (`src/src/listener/request.rs` lines 42–55),
with explicit fuel (each iteration consumes at least one wire event, so
`wire length + 1` fuel never runs out): read a line; stop at a line that is
empty after trimming; otherwise parse it as a header and accumulate. -/
def readHeadersAux : Nat → Headers → Wire → Except HttpRequestError Headers × Wire
  | 0, _, w => (.error none, w)
  | fuel + 1, acc, w =>
    match readLine w with
    | (.error e, w') => (.error e, w')
    | (.ok buffer, w') =>
      if (trimStr buffer).isEmpty then (.ok acc, w')
      else
        match HttpHeader.fromStr buffer with
        | .error e => (.error e, w')
        | .ok h => readHeadersAux fuel (insertHeader acc h.key h.value) w'

/-- The header loop of `read`, with sufficient fuel supplied. -/
def readHeaders (acc : Headers) (w : Wire) : Except HttpRequestError Headers × Wire :=
  readHeadersAux (w.length + 1) acc w

/-- The body framing of `read` (`src/src/listener/request.rs` lines 57–73):
`GET` always yields an empty body; otherwise, if a `content-length` header
exists its last value is parsed as a `usize` (failure is an error) and
exactly that many bytes are read; with no such header the stream is read
to exhaustion. -/
def readBody (method : Str) (headers : Headers) (w : Wire) :
    Except HttpRequestError Str × Wire :=
  if method = str "GET" then (.ok [], w)
  else
    match getHeader headers (str "content-length") with
    | some values =>
      match values.getLast? with
      | some v =>
        match parseUsize v with
        | some length => readExact length w
        | none => (.error none, w)
      | none => (.error none, w)
    | none => readToEnd w

/-- Models `request::read` (`src/src/listener/request.rs` lines 31–83):
read one line; zero bytes read means clean end of stream (`Ok None`);
otherwise parse it (after trimming the end) as the request line, read the
header block, then read the body per the framing rule. -/
def read (w : Wire) : Except HttpRequestError (Option HttpRequest) × Wire :=
  match readLine w with
  | (.error e, w') => (.error e, w')
  | (.ok buffer, w') =>
    if buffer.length = 0 then (.ok none, w')
    else
      match RequestLine.fromStr (trimEnd buffer) with
      | .error e => (.error e, w')
      | .ok rl =>
        match readHeaders [] w' with
        | (.error e, w2) => (.error e, w2)
        | (.ok headers, w2) =>
          match readBody rl.method headers w2 with
          | (.error e, w3) => (.error e, w3)
          | (.ok body, w3) =>
            (.ok (some ⟨rl.method, rl.target, rl.version, headers, body⟩), w3)

/-- Models the `HttpResponse` struct of `src/src/listener/mod.rs`. -/
structure HttpResponse where
  status_code : Nat
  status_line : Str
  headers : List (Str × Str)
  content : Str
deriving DecidableEq, Repr

/-- Models `HttpResponse::status`. -/
def HttpResponse.status (code : Nat) (line : Str) : HttpResponse :=
  ⟨code, line, [], []⟩

/-- Models `HttpResponse::ok`. -/
def HttpResponse.ok (contentType : Str) (content : Str) : HttpResponse :=
  ⟨200, str "OK", [(str "content-type", contentType)], content⟩

/-- Models `HttpResponse::has_content_length` (`src/src/listener/mod.rs`
lines 136–140). -/
def HttpResponse.has_content_length (r : HttpResponse) : Bool :=
  r.headers.any (fun kv => eqIgnoreAsciiCase kv.1 (str "content-length"))

/-- Decimal rendering of a number, as on the wire. -/
def natChars (n : Nat) : Str := (Nat.repr n).data

/-- Models the per-response write sequence of `start_writer`
(`src/src/listener/mod.rs` lines 44–71): status line, a synthesized
`content-length` header when the response carries none, the response's own
headers in list order, a blank line, then the content bytes. -/
def serializeResponse (r : HttpResponse) : Str :=
  (str "HTTP/1.1 " ++ natChars r.status_code ++ str " " ++ r.status_line ++ str "\r\n")
    ++ (if r.has_content_length then []
        else str "content-length: " ++ natChars r.content.length ++ str "\r\n")
    ++ (r.headers.map (fun kv => kv.1 ++ str ": " ++ kv.2 ++ str "\r\n")).flatten
    ++ str "\r\n"
    ++ r.content

/-- Models `process_request` (`src/src/listener/mod.rs` lines 146–163), the
dispatcher invoked by `read_loop`. The `/user-agent` arm matches
`Some([user_agent, ..])` on the value slice: the first stored value. -/
def processRequest (request : HttpRequest) : HttpResponse :=
  if request.target = str "/" then HttpResponse.status 200 (str "OK")
  else if request.target = str "/user-agent" then
    match getHeader request.headers (str "user-agent") with
    | some (ua :: _) => HttpResponse.ok (str "text/plain") ua
    | _ => HttpResponse.status 400 (str "Bad Request")
  else if (str "/echo/").isPrefixOf request.target then
    HttpResponse.ok (str "text/plain") (request.target.drop 6)
  else HttpResponse.status 404 (str "Not Found")

/-- One observable action of `read_loop` per iteration: a successfully
parsed request handed to a handling unit, or a synthesized 400 response
enqueued directly on a parse/IO error. -/
inductive ReadEvent
  | parsed (request : HttpRequest)
  | badRequest (response : HttpResponse)
deriving DecidableEq, Repr

/-- Models the loop of `read_loop` (`src/src/listener/mod.rs` lines 83–107)
with explicit fuel (each iteration that does not stop consumes at least one
wire event): on `Ok(Some(request))` record the request and continue; on
`Ok(None)` stop; on `Err(error)` enqueue `HttpResponse::status(400,
error.to_string())` and continue. -/
def readLoopAux : Nat → Wire → List ReadEvent
  | 0, _ => []
  | fuel + 1, w =>
    match read w with
    | (.ok (some request), w') => .parsed request :: readLoopAux fuel w'
    | (.ok none, _) => []
    | (.error e, w') =>
      .badRequest (HttpResponse.status 400 (errorDisplay e)) :: readLoopAux fuel w'

/-- The read loop with sufficient fuel supplied. -/
def readLoop (w : Wire) : List ReadEvent := readLoopAux (w.length + 1) w

/-- The response a read-loop event contributes to the response channel: a
parsed request's response comes from the dispatcher, an error event carries
its synthesized 400 response directly. -/
def eventResponse : ReadEvent → HttpResponse
  | .parsed request => processRequest request
  | .badRequest response => response

/-- The full bytes a connection writes for a given input wire: each
read-loop event's response, serialized by the writer in order. (The channel
imposes no cross-request order; for the single-request streams reasoned
about here the order is forced.) -/
def connectionOutput (w : Wire) : Str :=
  ((readLoop w).map (fun e => serializeResponse (eventResponse e))).flatten


/-- Models `root.join(&file[7..])` in the `("GET"|"POST", file, Some(root))
if file.starts_with("/files/")` arms of `handle`
(`src/src/listener/handler.rs` lines 57–95). Paths are modelled as
component lists; `PathBuf::join` with a relative argument appends the
argument's components. -/
def splitSlashAux (acc : Str) : Str → List Str
  | [] => [acc.reverse]
  | '/' :: rest => acc.reverse :: splitSlashAux [] rest
  | c :: rest => splitSlashAux (c :: acc) rest

/-- The components of a relative path string (empty components dropped). -/
def splitPathComponents (s : Str) : List Str :=
  (splitSlashAux [] s).filter (fun c => !c.isEmpty)

/-- Models `PathBuf::join` for a relative right-hand side: append the
components. -/
def pathJoin (root : List Str) (rel : Str) : List Str :=
  root ++ splitPathComponents rel

/-- The filesystem path accessed by the `/files/` routes of `handle`
(`src/src/listener/handler.rs` lines 57–95) when a root directory is
configured: `root.join(&file[7..])`, the raw remainder after `/files/`
joined onto the root with no sanitization. (No earlier match arm of
`handle` can capture a target beginning with `/files/`.) -/
def filesAccessPath (root : List Str) (target : Str) : Option (List Str) :=
  if (str "/files/").isPrefixOf target then some (pathJoin root (target.drop 7))
  else none

/-- Models POSIX resolution of `.` and `..` components by the operating
system when the joined path is opened: `..` removes the last resolved
component, `.` is skipped. -/
def resolvePath (cs : List Str) : List Str :=
  cs.foldl
    (fun acc c =>
      if c = str ".." then acc.dropLast
      else if c = str "." then acc
      else acc ++ [c])
    []

/-- The header-accumulation semantics of the header loop in `read`
(`src/src/listener/request.rs` lines 42–55), stated over the raw
key/value pairs of the arriving header lines: `HttpHeader::from_str`
lowercases each key and the loop body runs
`headers.entry(header.key).or_default().push(header.value)`. -/
def accumulateHeaders (hs : List (Str × Str)) : Headers :=
  hs.foldl (fun m kv => insertHeader m (lowerStr kv.1) kv.2) []

/-! ## Wire-consumption bounds -/

theorem readLine_wire_le (w : Wire) : (readLine w).2.length ≤ w.length := by
  induction w with
  | nil => simp [readLine]
  | cons ev rest ih =>
    cases ev with
    | fail => simp [readLine]
    | byte c =>
      by_cases hc : c = '\n'
      · simp [readLine, hc]
      · simp only [readLine, if_neg hc]
        cases h : readLine rest with
        | mk r w' =>
          rw [h] at ih
          cases r <;> simp_all <;> omega

theorem readLine_wire_lt (w : Wire) (hw : w ≠ []) :
    (readLine w).2.length < w.length := by
  cases w with
  | nil => exact absurd rfl hw
  | cons ev rest =>
    cases ev with
    | fail => simp [readLine]
    | byte c =>
      by_cases hc : c = '\n'
      · simp [readLine, hc]
      · simp only [readLine, if_neg hc]
        have := readLine_wire_le rest
        cases h : readLine rest with
        | mk r w' =>
          rw [h] at this
          cases r <;> simp_all <;> omega

theorem readExact_wire_le (n : Nat) (w : Wire) :
    (readExact n w).2.length ≤ w.length := by
  induction n generalizing w with
  | zero => simp [readExact]
  | succ n ih =>
    cases w with
    | nil => simp [readExact]
    | cons ev rest =>
      cases ev with
      | fail => simp [readExact]
      | byte c =>
        simp only [readExact]
        have := ih rest
        cases h : readExact n rest with
        | mk r w' =>
          rw [h] at this
          cases r <;> simp_all <;> omega

theorem readToEnd_wire_le (w : Wire) : (readToEnd w).2.length ≤ w.length := by
  induction w with
  | nil => simp [readToEnd]
  | cons ev rest ih =>
    cases ev with
    | fail => simp [readToEnd]
    | byte c =>
      simp only [readToEnd]
      cases h : readToEnd rest with
      | mk r w' =>
        rw [h] at ih
        cases r <;> simp_all <;> omega

theorem readHeadersAux_wire_le (fuel : Nat) (acc : Headers) (w : Wire) :
    (readHeadersAux fuel acc w).2.length ≤ w.length := by
  induction fuel generalizing acc w with
  | zero => simp [readHeadersAux]
  | succ fuel ih =>
    simp only [readHeadersAux]
    have hle := readLine_wire_le w
    cases h : readLine w with
    | mk r w' =>
      rw [h] at hle
      cases r with
      | error e => simpa using hle
      | ok buffer =>
        by_cases hb : (trimStr buffer).isEmpty
        · simp [hb]; exact hle
        · simp only [hb, Bool.false_eq_true, if_false]
          cases HttpHeader.fromStr buffer with
          | error e => simpa using hle
          | ok hh =>
            calc (readHeadersAux fuel (insertHeader acc hh.key hh.value) w').2.length
                ≤ w'.length := ih _ _
              _ ≤ w.length := hle

theorem readBody_wire_le (method : Str) (headers : Headers) (w : Wire) :
    (readBody method headers w).2.length ≤ w.length := by
  unfold readBody
  split
  · simp
  · split
    · split
      · split
        · exact readExact_wire_le _ w
        · simp
      · simp
    · exact readToEnd_wire_le w

theorem read_wire_lt (w : Wire) (hw : w ≠ []) : (read w).2.length < w.length := by
  have hlt := readLine_wire_lt w hw
  unfold read
  split
  · next e w1 hL => rw [hL] at hlt; simpa using hlt
  · next buffer w1 hL =>
    rw [hL] at hlt
    simp only at hlt
    split
    · simpa using hlt
    · split
      · simpa using hlt
      · next rl hrl =>
        have h2 : (readHeaders [] w1).2.length ≤ w1.length := readHeadersAux_wire_le _ _ _
        split
        · next e w2 hH =>
          rw [hH] at h2
          have h2' : w2.length ≤ w1.length := h2
          show w2.length < w.length
          omega
        · next headers w2 hH =>
          rw [hH] at h2
          have h2' : w2.length ≤ w1.length := h2
          have h3 : (readBody rl.method headers w2).2.length ≤ w2.length :=
            readBody_wire_le _ _ _
          split
          · next e w3 hB =>
            rw [hB] at h3
            have h3' : w3.length ≤ w2.length := h3
            show w3.length < w.length
            omega
          · next body w3 hB =>
            rw [hB] at h3
            have h3' : w3.length ≤ w2.length := h3
            show w3.length < w.length
            omega
/-! ## Every error carries the opaque `None` payload -/

theorem readLine_error_none (w w' : Wire) (e : HttpRequestError)
    (h : readLine w = (.error e, w')) : e = none := by
  induction w generalizing w' with
  | nil => simp [readLine] at h
  | cons ev rest ih =>
    cases ev with
    | fail => simp [readLine] at h; exact h.1.symm
    | byte c =>
      by_cases hc : c = '\n'
      · simp [readLine, hc] at h
      · simp only [readLine, if_neg hc] at h
        cases hr : readLine rest with
        | mk r w2 =>
          rw [hr] at h
          cases r with
          | ok line => simp at h
          | error e2 =>
            simp only at h
            cases h
            exact ih _ hr

theorem readExact_error_none (n : Nat) (w w' : Wire) (e : HttpRequestError)
    (h : readExact n w = (.error e, w')) : e = none := by
  induction n generalizing w w' with
  | zero => simp [readExact] at h
  | succ n ih =>
    cases w with
    | nil => simp [readExact] at h; exact h.1.symm
    | cons ev rest =>
      cases ev with
      | fail => simp [readExact] at h; exact h.1.symm
      | byte c =>
        simp only [readExact] at h
        cases hr : readExact n rest with
        | mk r w2 =>
          rw [hr] at h
          cases r with
          | ok bs => simp at h
          | error e2 =>
            simp only at h
            cases h
            exact ih _ _ hr

theorem readToEnd_error_none (w w' : Wire) (e : HttpRequestError)
    (h : readToEnd w = (.error e, w')) : e = none := by
  induction w generalizing w' with
  | nil => simp [readToEnd] at h
  | cons ev rest ih =>
    cases ev with
    | fail => simp [readToEnd] at h; exact h.1.symm
    | byte c =>
      simp only [readToEnd] at h
      cases hr : readToEnd rest with
      | mk r w2 =>
        rw [hr] at h
        cases r with
        | ok bs => simp at h
        | error e2 =>
          simp only at h
          cases h
          exact ih _ hr

theorem requestLine_fromStr_error_none (s : Str) (e : HttpRequestError)
    (h : RequestLine.fromStr s = .error e) : e = none := by
  unfold RequestLine.fromStr at h
  split at h
  · split at h
    · simp at h
    · cases h; rfl
  · cases h; rfl

theorem httpHeader_fromStr_error_none (s : Str) (e : HttpRequestError)
    (h : HttpHeader.fromStr s = .error e) : e = none := by
  unfold HttpHeader.fromStr at h
  split at h
  · simp at h
  · cases h; rfl

theorem readHeadersAux_error_none (fuel : Nat) (acc : Headers) (w w' : Wire)
    (e : HttpRequestError) (h : readHeadersAux fuel acc w = (.error e, w')) :
    e = none := by
  induction fuel generalizing acc w w' with
  | zero => simp [readHeadersAux] at h; exact h.1.symm
  | succ fuel ih =>
    simp only [readHeadersAux] at h
    cases hL : readLine w with
    | mk r w1 =>
      rw [hL] at h
      cases r with
      | error e2 =>
        simp only at h
        cases h
        exact readLine_error_none _ _ _ hL
      | ok buffer =>
        simp only at h
        split at h
        · simp at h
        · cases hp : HttpHeader.fromStr buffer with
          | error e2 =>
            rw [hp] at h
            simp only at h
            cases h
            exact httpHeader_fromStr_error_none _ _ hp
          | ok hh =>
            rw [hp] at h
            exact ih _ _ _ h

theorem readBody_error_none (method : Str) (headers : Headers) (w w' : Wire)
    (e : HttpRequestError) (h : readBody method headers w = (.error e, w')) :
    e = none := by
  unfold readBody at h
  split at h
  · simp at h
  · split at h
    · split at h
      · split at h
        · exact readExact_error_none _ _ _ _ h
        · cases h; rfl
      · cases h; rfl
    · exact readToEnd_error_none _ _ _ h

theorem read_error_none (w w' : Wire) (e : HttpRequestError)
    (h : read w = (.error e, w')) : e = none := by
  unfold read at h
  split at h
  · next e2 w1 hL => cases h; exact readLine_error_none _ _ _ hL
  · next buffer w1 hL =>
    split at h
    · simp at h
    · split at h
      · next e2 hr => cases h; exact requestLine_fromStr_error_none _ _ hr
      · next rl hr =>
        split at h
        · next e2 w2 hH => cases h; exact readHeadersAux_error_none _ _ _ _ _ hH
        · next headers w2 hH =>
          split at h
          · next e2 w3 hB => cases h; exact readBody_error_none _ _ _ _ _ hB
          · simp at h

/-! ## Read-loop unrolling -/

theorem read_nil : read [] = (.ok none, []) := rfl

theorem readLoopAux_succ (fuel : Nat) (w : Wire) :
    readLoopAux (fuel + 1) w =
      match read w with
      | (.ok (some request), w') => .parsed request :: readLoopAux fuel w'
      | (.ok none, _) => []
      | (.error e, w') =>
        .badRequest (HttpResponse.status 400 (errorDisplay e)) :: readLoopAux fuel w' := rfl

theorem readLoopAux_congr (f1 : Nat) :
    ∀ (f2 : Nat) (w : Wire), w.length < f1 → w.length < f2 →
      readLoopAux f1 w = readLoopAux f2 w := by
  induction f1 with
  | zero => intro f2 w h1 h2; omega
  | succ f1 ih =>
    intro f2 w h1 h2
    cases f2 with
    | zero => omega
    | succ f2 =>
      rw [readLoopAux_succ, readLoopAux_succ]
      cases hr : read w with
      | mk r w' =>
        cases r with
        | error e =>
          have hw : w ≠ [] := by
            intro hnil
            rw [hnil, read_nil] at hr
            simp at hr
          have hlt := read_wire_lt w hw
          rw [hr] at hlt
          have hlt' : w'.length < w.length := hlt
          dsimp only
          rw [ih f2 w' (by omega) (by omega)]
        | ok o =>
          cases o with
          | none => rfl
          | some request =>
            have hw : w ≠ [] := by
              intro hnil
              rw [hnil, read_nil] at hr
              simp at hr
            have hlt := read_wire_lt w hw
            rw [hr] at hlt
            have hlt' : w'.length < w.length := hlt
            dsimp only
            rw [ih f2 w' (by omega) (by omega)]

theorem readLoop_error_step (w w' : Wire) (e : HttpRequestError)
    (h : read w = (.error e, w')) :
    readLoop w = .badRequest (HttpResponse.status 400 (errorDisplay e)) :: readLoop w' := by
  have hw : w ≠ [] := by
    intro hnil
    rw [hnil, read_nil] at h
    simp at h
  have hlt := read_wire_lt w hw
  rw [h] at hlt
  have hlt' : w'.length < w.length := hlt
  show readLoopAux (w.length + 1) w = _
  rw [readLoopAux_succ, h]
  dsimp only
  rw [readLoopAux_congr w.length (w'.length + 1) w' (by omega) (by omega)]
  rfl

theorem readLoop_parsed_step (w w' : Wire) (request : HttpRequest)
    (h : read w = (.ok (some request), w')) :
    readLoop w = .parsed request :: readLoop w' := by
  have hw : w ≠ [] := by
    intro hnil
    rw [hnil, read_nil] at h
    simp at h
  have hlt := read_wire_lt w hw
  rw [h] at hlt
  have hlt' : w'.length < w.length := hlt
  show readLoopAux (w.length + 1) w = _
  rw [readLoopAux_succ, h]
  dsimp only
  rw [readLoopAux_congr w.length (w'.length + 1) w' (by omega) (by omega)]
  rfl

/-! ## Body framing facts -/

theorem readExact_ok_length (n : Nat) (w w' : Wire) (bs : Str)
    (h : readExact n w = (.ok bs, w')) : bs.length = n := by
  induction n generalizing w w' bs with
  | zero => simp [readExact] at h; rw [h.1]; rfl
  | succ n ih =>
    cases w with
    | nil => simp [readExact] at h
    | cons ev rest =>
      cases ev with
      | fail => simp [readExact] at h
      | byte c =>
        simp only [readExact] at h
        cases hr : readExact n rest with
        | mk r w2 =>
          rw [hr] at h
          cases r with
          | error e => simp at h
          | ok bs2 =>
            simp only at h
            cases h
            simp [ih _ _ _ hr]

theorem readBody_ok_length (method : Str) (headers : Headers) (w w' : Wire)
    (body : Str) (vs : List Str) (v : Str)
    (hok : readBody method headers w = (.ok body, w'))
    (hm : method ≠ str "GET")
    (hget : getHeader headers (str "content-length") = some vs)
    (hlast : vs.getLast? = some v) :
    parseUsize v = some body.length := by
  unfold readBody at hok
  rw [if_neg hm, hget] at hok
  dsimp only at hok
  rw [hlast] at hok
  dsimp only at hok
  cases hp : parseUsize v with
  | none => rw [hp] at hok; simp at hok
  | some length =>
    rw [hp] at hok
    dsimp only at hok
    rw [readExact_ok_length length w w' body hok]

theorem readBody_parse_failure (method : Str) (headers : Headers) (w : Wire)
    (vs : List Str) (v : Str)
    (hm : method ≠ str "GET")
    (hget : getHeader headers (str "content-length") = some vs)
    (hlast : vs.getLast? = some v)
    (hp : parseUsize v = none) :
    (readBody method headers w).1 = .error none := by
  unfold readBody
  rw [if_neg hm, hget]
  dsimp only
  rw [hlast]
  dsimp only
  rw [hp]

theorem readBody_get_empty (method : Str) (headers : Headers) (w : Wire)
    (hm : method = str "GET") : readBody method headers w = (.ok [], w) := by
  unfold readBody
  rw [if_pos hm]

/-- Inversion of a successful parse: the delivered request's method,
headers and body are related by `readBody` on some intermediate wire. -/
theorem read_ok_some_inv (w w' : Wire) (req : HttpRequest)
    (h : read w = (.ok (some req), w')) :
    ∃ w2, readBody req.method req.headers w2 = (.ok req.body, w') := by
  unfold read at h
  split at h
  · simp at h
  · next buffer w1 hL =>
    split at h
    · simp at h
    · split at h
      · simp at h
      · next rl hr =>
        split at h
        · simp at h
        · next headers w2 hH =>
          split at h
          · simp at h
          · next body w3 hB =>
            injection h with h1 h2
            injection h1 with h1
            injection h1 with h1
            subst h2
            rw [← h1]
            exact ⟨w2, hB⟩

/-! ## Header-map accumulation -/

theorem getHeader_insert (m : Headers) (k v k' : Str) :
    getHeader (insertHeader m k v) k' =
      if k' = k then some ((getHeader m k).getD [] ++ [v]) else getHeader m k' := by
  induction m with
  | nil =>
    by_cases h : k' = k
    · simp [getHeader, insertHeader, h]
    · simp [getHeader, insertHeader, h, Ne.symm h]
  | cons e rest ih =>
    by_cases hek : e.1 = k
    · by_cases hk : k' = k
      · simp [getHeader, insertHeader, hek, hk]
      · have hk2 : ¬ k = k' := fun hh => hk hh.symm
        simp [getHeader, insertHeader, hek, hk, hk2]
    · by_cases hek' : e.1 = k'
      · have hk : ¬ k' = k := by rw [← hek']; exact hek
        simp [getHeader, insertHeader, hek, hek', hk]
      · simp [getHeader, insertHeader, hek, hek', ih]

theorem getHeader_insert_none (m : Headers) (k v k' : Str) :
    getHeader (insertHeader m k v) k' = none ↔
      k' ≠ k ∧ getHeader m k' = none := by
  rw [getHeader_insert]
  by_cases h : k' = k <;> simp [h]

theorem getHeader_accumulate_getD (hs : List (Str × Str)) :
    ∀ (m : Headers) (key : Str),
      (getHeader (hs.foldl (fun m kv => insertHeader m (lowerStr kv.1) kv.2) m) key).getD []
        = (getHeader m key).getD []
            ++ (hs.filter (fun kv => lowerStr kv.1 == key)).map Prod.snd := by
  induction hs with
  | nil => simp
  | cons kv rest ih =>
    intro m key
    simp only [List.foldl_cons, List.filter_cons]
    rw [ih, getHeader_insert]
    by_cases h : lowerStr kv.1 = key
    · have h' : key = lowerStr kv.1 := h.symm
      have hb : (lowerStr kv.1 == key) = true := by rw [beq_iff_eq]; exact h
      rw [if_pos h', hb, if_pos rfl, h]
      simp
    · have h' : ¬ key = lowerStr kv.1 := fun hh => h hh.symm
      have hb : (lowerStr kv.1 == key) = false := by
        rw [beq_eq_false_iff_ne]; exact h
      rw [if_neg h', hb]
      simp

theorem getHeader_accumulate_none (hs : List (Str × Str)) :
    ∀ (m : Headers) (key : Str),
      (getHeader (hs.foldl (fun m kv => insertHeader m (lowerStr kv.1) kv.2) m) key = none ↔
        getHeader m key = none ∧ hs.filter (fun kv => lowerStr kv.1 == key) = []) := by
  induction hs with
  | nil => simp
  | cons kv rest ih =>
    intro m key
    simp only [List.foldl_cons, List.filter_cons]
    rw [ih, getHeader_insert_none]
    by_cases h : lowerStr kv.1 = key
    · have h' : key = lowerStr kv.1 := h.symm
      have hb : (lowerStr kv.1 == key) = true := by rw [beq_iff_eq]; exact h
      rw [hb, if_pos rfl]
      simp [h']
    · have h' : ¬ key = lowerStr kv.1 := fun hh => h hh.symm
      have hb : (lowerStr kv.1 == key) = false := by
        rw [beq_eq_false_iff_ne]; exact h
      rw [hb]
      simp [h']

/-! ## splitOnce facts -/

theorem splitOnceChar_not_mem (sep : Char) (s : Str) (h : sep ∉ s) :
    splitOnceChar sep s = none := by
  induction s with
  | nil => rfl
  | cons c rest ih =>
    simp only [splitOnceChar]
    have hc : ¬ c = sep := by
      intro hh
      exact h (hh ▸ List.mem_cons_self c rest)
    rw [if_neg hc, ih (fun hm => h (List.mem_cons_of_mem c hm))]
    rfl

theorem splitOnceChar_first (sep : Char) (pre post : Str) (h : sep ∉ pre) :
    splitOnceChar sep (pre ++ sep :: post) = some (pre, post) := by
  induction pre with
  | nil => simp [splitOnceChar]
  | cons c rest ih =>
    have hc : ¬ c = sep := by
      intro hh
      exact h (hh ▸ List.mem_cons_self c rest)
    simp only [List.cons_append, splitOnceChar, if_neg hc, List.append_eq]
    rw [ih (fun hm => h (List.mem_cons_of_mem c hm))]
    rfl

/-! ## Claim theorems -/

/-- C1, counterexample: the request parsed from
`"GET / HTTP/1.1\r\ncontent-length: 5\r\n\r\n"` carries an explicit
`content-length` header whose (last) value parses to `5`, yet the body
delivered to the dispatcher has length `0`: the claim fails for `GET`
requests, whose body is always empty regardless of headers. -/
theorem contentLength_get_counterexample :
    (read (strWire "GET / HTTP/1.1\r\ncontent-length: 5\r\n\r\n")).1
        = .ok (some ⟨str "GET", str "/", str "HTTP/1.1",
            [(str "content-length", [str "5"])], []⟩)
    ∧ parseUsize (str "5") = some 5
    ∧ ([] : Str).length ≠ 5 :=
  ⟨rfl, rfl, by decide⟩

/-- C1 (amended): for every non-`GET` request parsed off the wire that
carries an explicit `content-length` header, the delivered body's length
is exactly the header's last value parsed as a non-negative integer; a
parse failure of that value yields the `Error` outcome; and `GET`
requests always get an empty body regardless of the header. -/
theorem contentLength_body_length :
    (∀ (w w' : Wire) (req : HttpRequest) (vs : List Str) (v : Str),
        read w = (.ok (some req), w') → req.method ≠ str "GET" →
        getHeader req.headers (str "content-length") = some vs →
        vs.getLast? = some v →
        parseUsize v = some req.body.length)
    ∧ (∀ (method : Str) (headers : Headers) (w : Wire) (vs : List Str) (v : Str),
        method ≠ str "GET" →
        getHeader headers (str "content-length") = some vs →
        vs.getLast? = some v → parseUsize v = none →
        (readBody method headers w).1 = .error none)
    ∧ (∀ (w w' : Wire) (req : HttpRequest),
        read w = (.ok (some req), w') → req.method = str "GET" → req.body = []) := by
  refine ⟨?_, ?_, ?_⟩
  · intro w w' req vs v hread hm hget hlast
    obtain ⟨w2, hbody⟩ := read_ok_some_inv w w' req hread
    exact readBody_ok_length _ _ _ _ _ _ _ hbody hm hget hlast
  · intro method headers w vs v hm hget hlast hp
    exact readBody_parse_failure method headers w vs v hm hget hlast hp
  · intro w w' req hread hm
    obtain ⟨w2, hbody⟩ := read_ok_some_inv w w' req hread
    rw [readBody_get_empty _ _ _ hm] at hbody
    injection hbody with h1 h2
    injection h1 with h1
    exact h1.symm

/-- C1 witness: the request parsed from
`"POST /x HTTP/1.1\r\ncontent-length: 5\r\n\r\nhello"` gets a body of
exactly the declared 5 bytes. -/
theorem contentLength_body_length_witness :
    parseUsize (str "5")
      = some (HttpRequest.body ⟨str "POST", str "/x", str "HTTP/1.1",
          [(str "content-length", [str "5"])], str "hello"⟩).length :=
  contentLength_body_length.1
    (strWire "POST /x HTTP/1.1\r\ncontent-length: 5\r\n\r\nhello") []
    ⟨str "POST", str "/x", str "HTTP/1.1",
      [(str "content-length", [str "5"])], str "hello"⟩
    [str "5"] (str "5") rfl (by decide) rfl rfl

/-- C3, counterexample: after an I/O failure on the socket, the read loop
enqueues a 400 response and then parses the next request on the same
connection — the Reader Pipeline is not terminated and the error is
treated as a recoverable per-request outcome. -/
theorem readError_terminates_counterexample :
    readLoop (WireEvent.fail :: strWire "GET / HTTP/1.1\r\n\r\n")
      = [.badRequest (HttpResponse.status 400 (str "HTTP 400 Bad Request")),
         .parsed ⟨str "GET", str "/", str "HTTP/1.1", [], []⟩] := rfl

/-- C3 (amended): a socket I/O failure during request parsing is converted
to the same `Error` outcome as a parse failure: the read loop enqueues a
synthesized opaque 400 response and keeps reading the connection, rather
than terminating the Reader Pipeline. -/
theorem readError_enqueues_400_and_continues (rest : Wire) :
    readLoop (WireEvent.fail :: rest)
      = .badRequest (HttpResponse.status 400 (str "HTTP 400 Bad Request"))
          :: readLoop rest :=
  readLoop_error_step (WireEvent.fail :: rest) rest none rfl

/-- C4: for every malformed request (parse outcome `Error`), the read loop
enqueues exactly one synthesized 400 response whose reason string is the
opaque `"HTTP 400 Bad Request"` (the error payload is `None` at every
construction site), and then continues reading the connection. -/
theorem parse_error_enqueues_one_400_and_continues (w w' : Wire)
    (e : HttpRequestError) (h : read w = (.error e, w')) :
    readLoop w
      = .badRequest (HttpResponse.status 400 (str "HTTP 400 Bad Request"))
          :: readLoop w' := by
  have he := read_error_none w w' e h
  subst he
  exact readLoop_error_step w w' none h

/-- C4 witness: the malformed request line `"BADLINE\r\n"` yields one 400
event and the loop goes on to read the following request. -/
theorem parse_error_enqueues_one_400_and_continues_witness :
    readLoop (strWire "BADLINE\r\nGET / HTTP/1.1\r\n\r\n")
      = .badRequest (HttpResponse.status 400 (str "HTTP 400 Bad Request"))
          :: readLoop (strWire "GET / HTTP/1.1\r\n\r\n") :=
  parse_error_enqueues_one_400_and_continues
    (strWire "BADLINE\r\nGET / HTTP/1.1\r\n\r\n")
    (strWire "GET / HTTP/1.1\r\n\r\n") none rfl

/-- C5, counterexample: a `/user-agent` request with two `User-Agent`
headers `a` then `b` stores both values in arrival order, but the
dispatcher answers with the FIRST value `a`, not the last value `b`. -/
theorem user_agent_last_value_counterexample :
    (read (strWire
        "GET /user-agent HTTP/1.1\r\nUser-Agent: a\r\nUser-Agent: b\r\n\r\n")).1
        = .ok (some ⟨str "GET", str "/user-agent", str "HTTP/1.1",
            [(str "user-agent", [str "a", str "b"])], []⟩)
    ∧ (processRequest ⟨str "GET", str "/user-agent", str "HTTP/1.1",
          [(str "user-agent", [str "a", str "b"])], []⟩).content = str "a"
    ∧ ([str "a", str "b"]).getLast? = some (str "b")
    ∧ str "a" ≠ str "b" :=
  ⟨rfl, rfl, rfl, by decide⟩

/-- C5 (amended): for every `GET` request with target `/user-agent`, the
dispatcher returns a 200 response whose body is the FIRST stored value of
the `user-agent` header when one is present, and a 400 response when the
header is absent. -/
theorem user_agent_first_value (req : HttpRequest)
    (_hm : req.method = str "GET") (ht : req.target = str "/user-agent") :
    (∀ (ua : Str) (rest : List Str),
        getHeader req.headers (str "user-agent") = some (ua :: rest) →
        processRequest req = HttpResponse.ok (str "text/plain") ua)
    ∧ (getHeader req.headers (str "user-agent") = none →
        processRequest req = HttpResponse.status 400 (str "Bad Request")) := by
  constructor
  · intro ua rest hget
    unfold processRequest
    rw [ht, if_neg (by decide), if_pos rfl, hget]
  · intro hget
    unfold processRequest
    rw [ht, if_neg (by decide), if_pos rfl, hget]

/-- C5 witness: with stored `user-agent` values `["a", "b"]` the dispatcher
returns 200 text/plain with body `a`. -/
theorem user_agent_first_value_witness :
    processRequest ⟨str "GET", str "/user-agent", str "HTTP/1.1",
        [(str "user-agent", [str "a", str "b"])], []⟩
      = HttpResponse.ok (str "text/plain") (str "a") :=
  (user_agent_first_value
      ⟨str "GET", str "/user-agent", str "HTTP/1.1",
        [(str "user-agent", [str "a", str "b"])], []⟩ rfl rfl).1
    (str "a") [str "b"] rfl

/-- C6, counterexample: the header line `"Host : x\r\n"` parses to the key
`"host "` — lowercased but NOT trimmed (it retains the space before the
colon), refuting the claim that the produced key is trimmed. -/
theorem header_key_trimmed_counterexample :
    HttpHeader.fromStr (str "Host : x\r\n") = .ok ⟨str "host ", str "x"⟩
    ∧ trimStr (str "host ") ≠ str "host " :=
  ⟨rfl, by decide⟩

/-- C6 (amended): a header line containing a colon is split on the first
colon into a key that is lowercased (but not trimmed) and a value that is
trimmed; a header line with no colon yields the `Error` outcome. -/
theorem header_parse_splits_first_colon :
    (∀ (pre post : Str), ':' ∉ pre →
        HttpHeader.fromStr (pre ++ ':' :: post)
          = .ok ⟨lowerStr pre, trimStr post⟩)
    ∧ (∀ s : Str, ':' ∉ s → HttpHeader.fromStr s = .error none) := by
  constructor
  · intro pre post h
    unfold HttpHeader.fromStr
    rw [splitOnceChar_first ':' pre post h]
  · intro s h
    unfold HttpHeader.fromStr
    rw [splitOnceChar_not_mem ':' s h]

/-- C6 witness: `"Host: localhost:4221\r\n"` splits at the first colon,
lowercasing the key and trimming the value (which itself contains a
colon). -/
theorem header_parse_splits_first_colon_witness :
    HttpHeader.fromStr (str "Host" ++ ':' :: str " localhost:4221\r\n")
      = .ok ⟨lowerStr (str "Host"), trimStr (str " localhost:4221\r\n")⟩ :=
  header_parse_splits_first_colon.1 (str "Host") (str " localhost:4221\r\n")
    (by decide)

/-- C7: looking up the lowercased form of any key in the header map built
by the request parser's accumulation loop returns exactly the values of
all arriving headers whose raw key is case-insensitively equal to it, in
arrival order, under that single lookup key (`none` when there are none). -/
theorem header_lookup_case_insensitive_accumulation
    (hs : List (Str × Str)) (k : Str) :
    getHeader (accumulateHeaders hs) (lowerStr k)
      = if ((hs.filter (fun kv => eqIgnoreAsciiCase kv.1 k)).map Prod.snd).isEmpty
        then none
        else some ((hs.filter (fun kv => eqIgnoreAsciiCase kv.1 k)).map Prod.snd) := by
  unfold accumulateHeaders
  simp only [eqIgnoreAsciiCase]
  cases hg : getHeader
      (hs.foldl (fun m kv => insertHeader m (lowerStr kv.1) kv.2) []) (lowerStr k) with
  | none =>
    obtain ⟨-, hemp⟩ := (getHeader_accumulate_none hs [] (lowerStr k)).1 hg
    rw [hemp]
    simp
  | some l =>
    have hd := getHeader_accumulate_getD hs [] (lowerStr k)
    rw [hg] at hd
    simp only [Option.getD_some, Option.getD_none, getHeader, List.nil_append] at hd
    have hne : hs.filter (fun kv => lowerStr kv.1 == lowerStr k) ≠ [] := by
      intro hemp
      have hnone := (getHeader_accumulate_none hs [] (lowerStr k)).2 ⟨rfl, hemp⟩
      rw [hg] at hnone
      exact Option.some_ne_none l hnone
    have hcond :
        ¬ ((hs.filter (fun kv => lowerStr kv.1 == lowerStr k)).map Prod.snd).isEmpty
            = true := by
      rw [List.isEmpty_iff, List.map_eq_nil_iff]
      exact hne
    rw [if_neg hcond, hd]

/-- C8: on the input byte stream `"GET / HTTP/1.1\r\n\r\n"` on a fresh
connection, the output byte stream starts with exactly
`"HTTP/1.1 200 OK\r\ncontent-length: 0\r\n\r\n"`. -/
theorem get_root_request_output :
    List.isPrefixOf (str "HTTP/1.1 200 OK\r\ncontent-length: 0\r\n\r\n")
      (connectionOutput (strWire "GET / HTTP/1.1\r\n\r\n")) = true := rfl

/-- C10: for the target `/files/../secret` with configured root
`srv/www`, the file routes access `root.join("../secret")`, which the
operating system resolves to `srv/secret` — a path outside the configured
root (the root's components are not a prefix of the resolved path). -/
theorem files_route_path_traversal :
    filesAccessPath [str "srv", str "www"] (str "/files/../secret")
        = some (pathJoin [str "srv", str "www"] (str "../secret"))
    ∧ resolvePath (pathJoin [str "srv", str "www"] (str "../secret"))
        = [str "srv", str "secret"]
    ∧ List.isPrefixOf [str "srv", str "www"]
        (resolvePath (pathJoin [str "srv", str "www"] (str "../secret"))) = false :=
  ⟨rfl, rfl, rfl⟩

/-- C2: a response with no header case-insensitively equal to
`content-length` is serialized with a synthesized `content-length` header
whose value is the exact byte length of its content; a response already
carrying such a header gets no synthesized one. -/
theorem writer_synthesizes_content_length (r : HttpResponse) :
    ((∀ kv ∈ r.headers, ¬ eqIgnoreAsciiCase kv.1 (str "content-length") = true) →
      serializeResponse r =
        (str "HTTP/1.1 " ++ natChars r.status_code ++ str " "
            ++ r.status_line ++ str "\r\n")
          ++ (str "content-length: " ++ natChars r.content.length ++ str "\r\n")
          ++ (r.headers.map (fun kv => kv.1 ++ str ": " ++ kv.2 ++ str "\r\n")).flatten
          ++ str "\r\n" ++ r.content)
    ∧ ((∃ kv ∈ r.headers, eqIgnoreAsciiCase kv.1 (str "content-length") = true) →
      serializeResponse r =
        (str "HTTP/1.1 " ++ natChars r.status_code ++ str " "
            ++ r.status_line ++ str "\r\n")
          ++ (r.headers.map (fun kv => kv.1 ++ str ": " ++ kv.2 ++ str "\r\n")).flatten
          ++ str "\r\n" ++ r.content) := by
  constructor
  · intro h
    have hcl : r.has_content_length = false := by
      unfold HttpResponse.has_content_length
      rw [List.any_eq_false]
      exact h
    unfold serializeResponse
    rw [hcl]
    simp [List.append_assoc]
  · intro h
    have hcl : r.has_content_length = true := by
      unfold HttpResponse.has_content_length
      rw [List.any_eq_true]
      exact h
    unfold serializeResponse
    rw [hcl]
    simp [List.append_assoc]

/-- C2 witness: `HttpResponse::status(200, "OK")` carries no
`content-length` header, and its serialization synthesizes
`content-length: 0`. -/
theorem writer_synthesizes_content_length_witness :
    serializeResponse (HttpResponse.status 200 (str "OK"))
      = (str "HTTP/1.1 "
            ++ natChars (HttpResponse.status 200 (str "OK")).status_code
            ++ str " " ++ (HttpResponse.status 200 (str "OK")).status_line
            ++ str "\r\n")
          ++ (str "content-length: "
              ++ natChars (HttpResponse.status 200 (str "OK")).content.length
              ++ str "\r\n")
          ++ ((HttpResponse.status 200 (str "OK")).headers.map
                (fun kv => kv.1 ++ str ": " ++ kv.2 ++ str "\r\n")).flatten
          ++ str "\r\n" ++ (HttpResponse.status 200 (str "OK")).content :=
  (writer_synthesizes_content_length (HttpResponse.status 200 (str "OK"))).1
    (by decide)

end HttpSrv
